import Mathlib

/-!
Shallow embedding of the core of `src/SEN_HACKER.py` (ZSDIC PAK extractor /
repacker) and verification of its specification.

Byte buffers are modelled as `List Nat` (each entry one byte value).  File
contents and in-place file writes are modelled functionally: a write at an
offset produces the new contents of the file (POSIX semantics: a write past
end-of-file zero-fills the gap).  The zstd codec is an external collaborator
and is modelled as an opaque function parameter `encode : Nat → List Nat`
(compression level to encoded bytes, the plaintext and dictionary being
fixed) respectively `decode`.

The scanning loop of `split_segments` / `extract_segment` advances its cursor
by `len(magic)` after every hit, so for a non-empty magic pattern it performs
at most `len(data) + 1` iterations; the Lean model makes that bound explicit
as structural fuel (for the empty pattern the Python loop diverges, so all
theorems about the scan assume a non-empty pattern).
-/

namespace SenHacker

/-- `MAGIC_NUMBER = b'\x28\xB5\x2F\xFD'` (source line 20). -/
def MAGIC_NUMBER : List Nat := [0x28, 0xB5, 0x2F, 0xFD]

/-- `DICT_START_HEX = bytes.fromhex("37 A4 30 EC")` (source line 21). -/
def DICT_START_HEX : List Nat := [0x37, 0xA4, 0x30, 0xEC]

/-- `MAX_COMPRESSION_LEVEL = 22` (source line 22). -/
def MAX_COMPRESSION_LEVEL : Nat := 22

/-- Python slice `data[s:e]` (clamping at the ends, empty when `e ≤ s`). -/
def slice (data : List Nat) (s e : Nat) : List Nat :=
  (data.take e).drop s

/-- `data[i:i+len(magic)] == magic`: the pattern `magic` occurs in `data` at
offset `i`. -/
def matchesAt (data magic : List Nat) (i : Nat) : Bool :=
  decide ((data.drop i).take magic.length = magic)

/-- Python `data.find(magic, start)`: the least offset `i ≥ start` at which
`magic` occurs in `data`, if any (`-1` becomes `none`).  A match can only
start at an offset `≤ data.length`, so searching `0 .. data.length` is
exhaustive. -/
def findFrom (data magic : List Nat) (start : Nat) : Option Nat :=
  (List.range (data.length + 1)).find? fun i => decide (start ≤ i) && matchesAt data magic i

/-- The scanning `while` loop (walrus-assigning `data.find(magic_number,
start)` to `start` until it is `-1`) of `split_segments` / `extract_segment`
(source lines 132-136 and 165-169):
collect match offsets, advancing the cursor by `len(magic)` after each hit.
`fuel` bounds the number of iterations. -/
def magicOffsets (data magic : List Nat) : Nat → Nat → List Nat
  | 0, _ => []
  | fuel + 1, start =>
    match findFrom data magic start with
    | none => []
    | some i => i :: magicOffsets data magic fuel (i + magic.length)

/-- Number of greedy non-overlapping occurrences of `magic` in `data`
starting the scan at `start` (the count Python's `bytes.count` computes),
fuel-bounded like the scan itself. -/
def countOccAux (data magic : List Nat) : Nat → Nat → Nat
  | 0, _ => 0
  | fuel + 1, start =>
    match findFrom data magic start with
    | none => 0
    | some i => countOccAux data magic fuel (i + magic.length) + 1

/-- Number of greedy non-overlapping occurrences of `magic` in `data`. -/
def countOcc (data magic : List Nat) : Nat :=
  countOccAux data magic (data.length + 1) 0

/-- `split_indices` as built by `split_segments` / `extract_segment`
(source lines 132-137 / 165-170): every match offset, then `len(data)`
appended as the EOF boundary. -/
def split_indices (data magic : List Nat) : List Nat :=
  magicOffsets data magic (data.length + 1) 0 ++ [data.length]

/-- Consecutive pairs of a boundary list:
`boundaryPairs [b0, b1, b2] = [(b0, b1), (b1, b2)]`, mirroring
`for i in range(len(split_indices) - 1)` (source lines 140-143). -/
def boundaryPairs : List Nat → List (Nat × Nat)
  | a :: b :: rest => (a, b) :: boundaryPairs (b :: rest)
  | _ => []

/-- The table of half-open segment byte ranges the indexer discovers. -/
def segmentRanges (data magic : List Nat) : List (Nat × Nat) :=
  boundaryPairs (split_indices data magic)

/-- `split_segments(data, magic_number)` (source lines 130-144): the list of
`(1-based sequence number, segment bytes)` pairs. -/
def split_segments (data magic : List Nat) : List (Nat × List Nat) :=
  (List.enumFrom 1 (segmentRanges data magic)).map fun p => (p.1, slice data p.2.1 p.2.2)

/-- `extract_segment(pak_file, segment_index, magic_number)` (source lines
161-177), with the file contents passed directly.  `none` models the
`IndexError("Segment index out of range.")`; otherwise the result is
`(segment_start, segment_end, data[segment_start:segment_end])`. -/
def extract_segment (data : List Nat) (segment_index : Nat) (magic : List Nat) :
    Option (Nat × Nat × List Nat) :=
  if segment_index < 1 ∨ (split_indices data magic).length - 1 < segment_index then none
  else
    some ((split_indices data magic).getD (segment_index - 1) 0,
      (split_indices data magic).getD segment_index 0,
      slice data ((split_indices data magic).getD (segment_index - 1) 0)
        ((split_indices data magic).getD segment_index 0))

example : split_indices ([0x28, 0xB5, 0x2F, 0xFD, 65, 65, 65] ++ [0x28, 0xB5, 0x2F, 0xFD, 66, 66, 66, 66]) MAGIC_NUMBER = [0, 7, 15] := by decide

example : segmentRanges ([0x28, 0xB5, 0x2F, 0xFD, 65, 65, 65, 0x28, 0xB5, 0x2F, 0xFD, 66, 66, 66, 66]) MAGIC_NUMBER = [(0, 7), (7, 15)] := by decide

example : split_segments [1, 2, 3] MAGIC_NUMBER = [] := by decide

example : extract_segment [0x28, 0xB5, 0x2F, 0xFD, 9, 9, 9] 1 MAGIC_NUMBER = some (0, 7, [0x28, 0xB5, 0x2F, 0xFD, 9, 9, 9]) := by decide

example : extract_segment [0x28, 0xB5, 0x2F, 0xFD, 9, 9, 9] 0 MAGIC_NUMBER = none := by decide

example : countOcc [0x28, 0xB5, 0x2F, 0xFD, 9, 0x28, 0xB5, 0x2F, 0xFD] MAGIC_NUMBER = 2 := by decide

/-- Contents of a file after `seek(pos); write(d)` on contents `f` (POSIX
`rb+` semantics: bytes before `pos` kept, a seek past end-of-file zero-fills
the gap, the write overwrites `d.length` bytes and keeps any tail). -/
def writeAt (f : List Nat) (pos : Nat) (d : List Nat) : List Nat :=
  f.take pos ++ List.replicate (pos - f.length) 0 ++ d ++ f.drop (pos + d.length)

/-- `replace_segment(pak_file, segment_start, segment_end, compressed_data)`
(source lines 189-200), on the file contents.  `none` models the
`ValueError` raised when `len(compressed_data) > segment_end - segment_start`
(a Python `int` comparison, hence the cast to `Int`); otherwise the new
contents: `compressed_data` written at `segment_start`, then — exactly when
`len(compressed_data) < original_segment_size` — a zero fill up to
`segment_end`. -/
def replace_segment (pak : List Nat) (segment_start segment_end : Nat) (compressed : List Nat) :
    Option (List Nat) :=
  if (compressed.length : Int) > (segment_end : Int) - (segment_start : Int) then none
  else
    let f1 := writeAt pak segment_start compressed
    if (compressed.length : Int) < (segment_end : Int) - (segment_start : Int) then
      some (writeAt f1 (segment_start + compressed.length)
        (List.replicate (segment_end - segment_start - compressed.length) 0))
    else some f1

example : replace_segment [1, 2, 3, 4, 5, 6, 7] 1 5 [9, 9] = some [1, 9, 9, 0, 0, 6, 7] := by decide

example : replace_segment [1, 2, 3, 4, 5, 6, 7] 1 5 [9, 9, 9, 9, 9] = none := by decide

/-- Per-edit outcome of the repack engine: `success level` for
`"Reimported: ... (level ...)"`, `segmentNotFound` for the caught
`IndexError` of `extract_segment`, `compressionOverflow` for the exhausted
level search (`"Failed to reimport"`). -/
inductive EditOutcome where
  | success : Nat → EditOutcome
  | segmentNotFound : EditOutcome
  | compressionOverflow : EditOutcome
deriving DecidableEq, Repr

/-- `range(1, MAX_COMPRESSION_LEVEL + 1)` (source line 298): the levels
`1, 2, ..., 22` in ascending order. -/
def compression_levels : List Nat := List.range' 1 MAX_COMPRESSION_LEVEL

/-- The `for compression_level in ...: try ... except ValueError: continue`
loop body of `repack_zsdic` (source lines 298-306): encode the plaintext at
each level in turn and attempt `replace_segment`; the first level whose
attempt does not raise is accepted (`break`) together with the patched
contents; a `ValueError` (oversized encoding) moves on to the next level;
`none` models the exhausted loop (`for ... else`). -/
def level_loop (pak : List Nat) (segment_start segment_end : Nat) (encode : Nat → List Nat) :
    List Nat → Option (Nat × List Nat)
  | [] => none
  | l :: ls =>
    match replace_segment pak segment_start segment_end (encode l) with
    | some pak2 => some (l, pak2)
    | none => level_loop pak segment_start segment_end encode ls

/-- One iteration of the `for file_name in files` loop of `repack_zsdic`
(source lines 291-310) on the current archive-copy contents `pak`:
re-index the archive to locate the segment for `seq`, search the levels,
and either patch or leave the contents untouched, recording the outcome.
`encode level` models `compress_file(input_file, dict_data, level)` for this
edit's plaintext and the run's dictionary. -/
def repack_edit (encode : Nat → List Nat) (pak : List Nat) (seq : Nat) :
    List Nat × EditOutcome :=
  match extract_segment pak seq MAGIC_NUMBER with
  | none => (pak, EditOutcome.segmentNotFound)
  | some (s, e, _) =>
    match level_loop pak s e encode compression_levels with
    | none => (pak, EditOutcome.compressionOverflow)
    | some (l, pak2) => (pak2, EditOutcome.success l)

/-- The whole `for file_name in files` loop of `repack_zsdic` (source lines
291-310): process the edits in order, threading the archive-copy contents,
and collect one outcome per edit.  `encode plain level` models
`compress_file` on that edit's plaintext. -/
def repack_run (encode : List Nat → Nat → List Nat) (pak : List Nat) :
    List (Nat × List Nat) → List Nat × List EditOutcome
  | [] => (pak, [])
  | (seq, plain) :: rest =>
    let step := repack_edit (encode plain) pak seq
    let tail := repack_run encode step.1 rest
    (tail.1, step.2 :: tail.2)

/-- `extract_dictionary_from_pak(pak_file, start_hex)` (source lines
121-128), on the file contents: the suffix of the archive from the first
occurrence of `start_hex` (inclusive) to end-of-file; `none` models the
`ValueError("Dictionary not found in the PAK file.")`. -/
def extract_dictionary_from_pak (data start_hex : List Nat) : Option (List Nat) :=
  match findFrom data start_hex 0 with
  | none => none
  | some i => some (data.drop i)

/-- The dictionary-resolution step shared by `unpack_zsdic` and
`repack_zsdic` (source lines 224-229 / 276-281): `external = some d` models
a detected dictionary file whose read returned `d` (`load_dictionary`
succeeded), in which case its bytes win unchanged; otherwise fall back to
the embedded dictionary, `none` modelling `DictionaryNotFound`. -/
def resolve_dictionary (archive : List Nat) (external : Option (List Nat)) :
    Option (List Nat) :=
  match external with
  | some d => some d
  | none => extract_dictionary_from_pak archive DICT_START_HEX

example : resolve_dictionary ([88, 88] ++ DICT_START_HEX ++ [68, 73, 67, 84, 68, 65, 84, 65]) none = some (DICT_START_HEX ++ [68, 73, 67, 84, 68, 65, 84, 65]) := by decide

/-- The environment the menu layer hands to an operation: the detected
archive file's contents (`none` when no `.pak` file was detected:
`ArchiveNotFound`) and the detected dictionary file's contents (`none` when
`load_dictionary` fails). -/
structure Env where
  archive : Option (List Nat)
  externalDict : Option (List Nat)

/-- Filesystem artifacts an operation creates, in creation order (directory
creation via `os.makedirs` is not an artifact). -/
inductive FsEffect where
  | backupCopy : FsEffect
  | archiveCopy : FsEffect
  | writeArtifact : Nat → List Nat → FsEffect
  | patchWrite : Nat → FsEffect
deriving DecidableEq, Repr

/-- End state of an operation as reported to the user. -/
inductive OpResult where
  | archiveNotFound : OpResult
  | dictionaryNotFound : OpResult
  | noEdits : OpResult
  | completed : OpResult
deriving DecidableEq, Repr

/-- `unpack_zsdic()` (source lines 202-253) as its trace of created file
artifacts plus its end state: abort with no artifact when no archive was
detected; otherwise create the backup copy (line 217), then resolve the
dictionary (lines 224-229) — a failure there aborts the run after the
backup; otherwise write one `%08d.dat` artifact per segment that decodes
(`decompress_segment`, a decode failure only skips that segment's artifact).
The worker pool writes to distinct pre-determined paths, so the artifact
list is recorded in segment order. -/
def unpack_zsdic (env : Env) (decode : List Nat → List Nat → Option (List Nat)) :
    List FsEffect × OpResult :=
  match env.archive with
  | none => ([], OpResult.archiveNotFound)
  | some data =>
    match resolve_dictionary data env.externalDict with
    | none => ([FsEffect.backupCopy], OpResult.dictionaryNotFound)
    | some dict =>
      ([FsEffect.backupCopy] ++
        (split_segments data MAGIC_NUMBER).filterMap
          (fun seg => (decode dict seg.2).map fun p => FsEffect.writeArtifact seg.1 p),
        OpResult.completed)

/-- The per-edit patch-write effects of the repack loop: one `patchWrite`
per successfully reimported edit, threading the archive-copy contents. -/
def repack_edits_trace (encode : List Nat → Nat → List Nat) (pak : List Nat) :
    List (Nat × List Nat) → List FsEffect
  | [] => []
  | (seq, plain) :: rest =>
    let step := repack_edit (encode plain) pak seq
    (match step.2 with
     | EditOutcome.success _ => [FsEffect.patchWrite seq]
     | _ => []) ++ repack_edits_trace encode step.1 rest

/-- `repack_zsdic()` (source lines 255-322) as its trace of created file
artifacts plus its end state: abort with no artifact when no archive was
detected, or when there are no edit files to repack (lines 263-268);
otherwise create the writable archive copy (line 273), then resolve the
dictionary (lines 276-281) — a failure there aborts the run after the copy;
otherwise run the edit loop, patching the copy in place. -/
def repack_zsdic (env : Env) (encode : List Nat → Nat → List Nat)
    (edits : List (Nat × List Nat)) : List FsEffect × OpResult :=
  match env.archive with
  | none => ([], OpResult.archiveNotFound)
  | some data =>
    if edits.isEmpty then ([], OpResult.noEdits)
    else
      match resolve_dictionary data env.externalDict with
      | none => ([FsEffect.archiveCopy], OpResult.dictionaryNotFound)
      | some _ =>
        (FsEffect.archiveCopy :: repack_edits_trace encode data edits, OpResult.completed)

example : repack_edit (fun _ => [7, 7]) [0x28, 0xB5, 0x2F, 0xFD, 9, 9, 9] 1 = ([7, 7, 0, 0, 0, 0, 0], EditOutcome.success 1) := by decide

example : repack_edit (fun _ => List.replicate 8 7) [0x28, 0xB5, 0x2F, 0xFD, 9, 9, 9] 1 = ([0x28, 0xB5, 0x2F, 0xFD, 9, 9, 9], EditOutcome.compressionOverflow) := by decide

example : unpack_zsdic ⟨some [9, 9], none⟩ (fun _ _ => none) = ([FsEffect.backupCopy], OpResult.dictionaryNotFound) := by decide

/-! ### Helper lemmas about the scan -/

theorem matchesAt_bound {data magic : List Nat} {i : Nat} (hm : magic ≠ [])
    (h : matchesAt data magic i = true) : i + magic.length ≤ data.length := by
  rw [matchesAt, decide_eq_true_eq] at h
  have hl := congrArg List.length h
  rw [List.length_take, List.length_drop] at hl
  have h1 : 0 < magic.length := List.length_pos.mpr hm
  omega

theorem find?_eq_some_of_first {p : Nat → Bool} :
    ∀ (l : List Nat), l.Pairwise (· < ·) → ∀ i : Nat, i ∈ l → p i = true →
      (∀ b ∈ l, b < i → p b = false) → l.find? p = some i
  | [], _, i, hi, _, _ => absurd hi (List.not_mem_nil i)
  | a :: tl, hl, i, hi, hpi, hmin => by
    rw [List.pairwise_cons] at hl
    rcases List.mem_cons.mp hi with rfl | hitl
    · rw [List.find?_cons_of_pos _ hpi]
    · have ha : a < i := hl.1 i hitl
      have hpa : p a = false := hmin a (List.mem_cons_self a tl) ha
      rw [List.find?_cons_of_neg _ (by simp [hpa])]
      exact find?_eq_some_of_first tl hl.2 i hitl hpi
        fun b hb hbi => hmin b (List.mem_cons_of_mem a hb) hbi

theorem find?_min_of_sorted {p : Nat → Bool} :
    ∀ (l : List Nat), l.Pairwise (· < ·) → ∀ i : Nat, l.find? p = some i →
      ∀ b ∈ l, b < i → p b = false
  | [], _, i, h => by simp [List.find?] at h
  | a :: tl, hl, i, h => by
    rw [List.pairwise_cons] at hl
    intro b hb hbi
    by_cases hpa : p a = true
    · rw [List.find?_cons_of_pos _ hpa] at h
      injection h with h
      subst h
      rcases List.mem_cons.mp hb with rfl | hbtl
      · omega
      · exact absurd (hl.1 b hbtl) (by omega)
    · rcases List.mem_cons.mp hb with rfl | hbtl
      · simpa using hpa
      · rw [List.find?_cons_of_neg _ hpa] at h
        exact find?_min_of_sorted tl hl.2 i h b hbtl hbi

theorem findFrom_some_facts {data magic : List Nat} {start i : Nat}
    (h : findFrom data magic start = some i) :
    start ≤ i ∧ matchesAt data magic i = true ∧ i ≤ data.length := by
  have hp := List.find?_some h
  have hmem := List.mem_of_find?_eq_some h
  rw [List.mem_range] at hmem
  simp only [Bool.and_eq_true, decide_eq_true_eq] at hp
  exact ⟨hp.1, hp.2, by omega⟩

theorem findFrom_some_le {data magic : List Nat} {start i : Nat}
    (h : findFrom data magic start = some i) : i + magic.length ≤ data.length := by
  rcases eq_or_ne magic [] with rfl | hm
  · simpa using (findFrom_some_facts h).2.2
  · exact matchesAt_bound hm (findFrom_some_facts h).2.1

theorem findFrom_eq_some_iff {data magic : List Nat} (hm : magic ≠ []) {start i : Nat} :
    findFrom data magic start = some i ↔
      start ≤ i ∧ matchesAt data magic i = true ∧
        ∀ j, start ≤ j → j < i → matchesAt data magic j = false := by
  constructor
  · intro h
    obtain ⟨h1, h2, h3⟩ := findFrom_some_facts h
    refine ⟨h1, h2, fun j hj hji => ?_⟩
    have hjm : j ∈ List.range (data.length + 1) := by rw [List.mem_range]; omega
    have := find?_min_of_sorted _ (List.sorted_lt_range _) i h j hjm hji
    simpa [hj] using this
  · rintro ⟨h1, h2, h3⟩
    apply find?_eq_some_of_first _ (List.sorted_lt_range _)
    · rw [List.mem_range]
      have hb := matchesAt_bound hm h2
      omega
    · simp [h1, h2]
    · intro b _ hbi
      by_cases hsb : start ≤ b
      · simp [hsb, h3 b hsb hbi]
      · simp [hsb]

theorem findFrom_eq_none_of_all {data magic : List Nat} {start : Nat}
    (h : ∀ j, start ≤ j → matchesAt data magic j = false) :
    findFrom data magic start = none := by
  rw [findFrom, List.find?_eq_none]
  intro j _
  by_cases hsj : start ≤ j
  · simp [hsj, h j hsj]
  · simp [hsj]

theorem magicOffsets_mem {data magic : List Nat} :
    ∀ {fuel start x : Nat}, x ∈ magicOffsets data magic fuel start →
      start ≤ x ∧ x + magic.length ≤ data.length := by
  intro fuel
  induction fuel with
  | zero => intro start x hx; simp [magicOffsets] at hx
  | succ n ih =>
    intro start x hx
    rw [magicOffsets] at hx
    cases hf : findFrom data magic start with
    | none => rw [hf] at hx; simp at hx
    | some i =>
      rw [hf] at hx
      rcases List.mem_cons.mp hx with rfl | hx'
      · exact ⟨(findFrom_some_facts hf).1, findFrom_some_le hf⟩
      · have h2 := ih hx'
        have hi := (findFrom_some_facts hf).1
        exact ⟨by omega, h2.2⟩

theorem magicOffsets_chain {data magic : List Nat} :
    ∀ (fuel start : Nat),
      List.Chain' (fun a b => a + magic.length ≤ b) (magicOffsets data magic fuel start) := by
  intro fuel
  induction fuel with
  | zero => intro start; simp [magicOffsets]
  | succ n ih =>
    intro start
    rw [magicOffsets]
    cases hf : findFrom data magic start with
    | none => simp
    | some i =>
      rw [List.chain'_cons']
      refine ⟨fun y hy => ?_, ih _⟩
      exact (magicOffsets_mem (List.mem_of_mem_head? hy)).1

/-! ### Helper lemmas about the boundary table -/

theorem mem_of_getLast? {l : List Nat} {x : Nat} (h : x ∈ l.getLast?) : x ∈ l := by
  obtain ⟨hne, hx⟩ := List.mem_getLast?_eq_getLast h
  subst hx
  exact List.getLast_mem hne

theorem split_indices_chain (data magic : List Nat) :
    List.Chain' (fun a b => a + magic.length ≤ b) (split_indices data magic) := by
  rw [split_indices, List.chain'_append]
  refine ⟨magicOffsets_chain _ _, List.chain'_singleton _, ?_⟩
  intro x hx y hy
  simp only [List.head?_cons, Option.mem_def, Option.some.injEq] at hy
  subst hy
  exact (magicOffsets_mem (mem_of_getLast? hx)).2

theorem split_indices_le (data magic : List Nat) :
    List.Chain' (· ≤ ·) (split_indices data magic) :=
  List.Chain'.imp (fun a b h => by omega) (split_indices_chain data magic)

theorem split_indices_lt {data magic : List Nat} (hm : magic ≠ []) :
    List.Chain' (· < ·) (split_indices data magic) := by
  have h1 : 0 < magic.length := List.length_pos.mpr hm
  exact List.Chain'.imp (fun a b h => by omega) (split_indices_chain data magic)

theorem split_indices_mem_le {data magic : List Nat} {x : Nat}
    (h : x ∈ split_indices data magic) : x ≤ data.length := by
  rw [split_indices, List.mem_append] at h
  rcases h with h | h
  · have := magicOffsets_mem h
    omega
  · simp only [List.mem_singleton] at h
    omega

theorem boundaryPairs_contig : ∀ l : List Nat,
    List.Chain' (fun p q : Nat × Nat => p.2 = q.1) (boundaryPairs l)
  | [] => by simp [boundaryPairs]
  | [_] => by simp [boundaryPairs]
  | a :: b :: rest => by
    rw [boundaryPairs, List.chain'_cons']
    refine ⟨fun y hy => ?_, boundaryPairs_contig (b :: rest)⟩
    cases rest with
    | nil => simp [boundaryPairs] at hy
    | cons c rest' =>
      rw [boundaryPairs] at hy
      simp only [List.head?_cons, Option.mem_def, Option.some.injEq] at hy
      subst hy
      rfl

theorem boundaryPairs_rel {R : Nat → Nat → Prop} : ∀ {l : List Nat},
    List.Chain' R l → ∀ p ∈ boundaryPairs l, R p.1 p.2
  | [], _, p, hp => by simp [boundaryPairs] at hp
  | [_], _, p, hp => by simp [boundaryPairs] at hp
  | _ :: b :: rest, hc, p, hp => by
    rw [boundaryPairs] at hp
    rcases List.mem_cons.mp hp with rfl | hp'
    · exact (List.chain'_cons.mp hc).1
    · exact boundaryPairs_rel (List.chain'_cons.mp hc).2 p hp'

theorem boundaryPairs_length : ∀ l : List Nat, (boundaryPairs l).length = l.length - 1
  | [] => rfl
  | [_] => rfl
  | _ :: b :: rest => by
    rw [boundaryPairs, List.length_cons, boundaryPairs_length (b :: rest)]
    simp

/-- A list of half-open ranges that starts at `a`, chains consecutively
(each range's end is the next range's start) and ends at `L`. -/
def chainFrom (a : Nat) : List (Nat × Nat) → Nat → Prop
  | [], L => a = L
  | r :: rest, L => r.1 = a ∧ r.1 ≤ r.2 ∧ chainFrom r.2 rest L

theorem chainFrom_le : ∀ {l : List (Nat × Nat)} {a L : Nat}, chainFrom a l L → a ≤ L
  | [], _, _, h => le_of_eq h
  | _ :: _, _, _, h => by
    obtain ⟨h1, h2, h3⟩ := h
    have := chainFrom_le h3
    omega

theorem chainFrom_union : ∀ {l : List (Nat × Nat)} {a L : Nat}, chainFrom a l L →
    ∀ x : Nat, (∃ r ∈ l, r.1 ≤ x ∧ x < r.2) ↔ (a ≤ x ∧ x < L)
  | [], a, L, h, x => by
    have : a = L := h
    subst this
    simp only [List.not_mem_nil, false_and, exists_false, false_iff]
    omega
  | r :: rest, a, L, h, x => by
    obtain ⟨h1, h2, h3⟩ := h
    have ih := chainFrom_union h3 x
    have hL := chainFrom_le h3
    constructor
    · rintro ⟨q, hq, hq1, hq2⟩
      rcases List.mem_cons.mp hq with rfl | hq'
      · omega
      · have := ih.mp ⟨q, hq', hq1, hq2⟩
        omega
    · rintro ⟨hax, hxL⟩
      by_cases hx : x < r.2
      · exact ⟨r, List.mem_cons_self r rest, by omega, hx⟩
      · obtain ⟨q, hq, hh⟩ := ih.mpr ⟨by omega, hxL⟩
        exact ⟨q, List.mem_cons_of_mem r hq, hh⟩

theorem boundaryPairs_chainFrom : ∀ (l : List Nat) (a : Nat),
    List.Chain' (· ≤ ·) (a :: l) → chainFrom a (boundaryPairs (a :: l)) (l.getLastD a)
  | [], a, _ => rfl
  | b :: rest, a, hc => by
    rw [boundaryPairs, List.getLastD_cons]
    have hab : a ≤ b := (List.chain'_cons.mp hc).1
    exact ⟨rfl, hab, boundaryPairs_chainFrom rest b (List.chain'_cons.mp hc).2⟩

/-! ### Helper lemmas about segment extraction and patching -/

theorem split_indices_length_pos (data magic : List Nat) :
    0 < (split_indices data magic).length := by
  rw [split_indices]
  simp

theorem split_indices_getD_le {data magic : List Nat} {j : Nat}
    (hj : j < (split_indices data magic).length) :
    (split_indices data magic).getD j 0 ≤ data.length := by
  rw [List.getD_eq_getElem?_getD, List.getElem?_eq_getElem hj]
  exact split_indices_mem_le (List.getElem_mem hj)

theorem split_indices_getD_mono {data magic : List Nat} {j : Nat}
    (hj : j + 1 < (split_indices data magic).length) :
    (split_indices data magic).getD j 0 ≤ (split_indices data magic).getD (j + 1) 0 := by
  have hc := List.chain'_iff_get.mp (split_indices_le data magic) j (by omega)
  rw [List.getD_eq_getElem?_getD, List.getElem?_eq_getElem (by omega : j < _),
    List.getD_eq_getElem?_getD, List.getElem?_eq_getElem hj]
  simpa [List.get_eq_getElem] using hc

theorem extract_segment_eq_some {data magic : List Nat} {seq s e : Nat} {b : List Nat}
    (h : extract_segment data seq magic = some (s, e, b)) :
    1 ≤ seq ∧ seq ≤ (split_indices data magic).length - 1 ∧
      s = (split_indices data magic).getD (seq - 1) 0 ∧
      e = (split_indices data magic).getD seq 0 ∧
      s ≤ e ∧ e ≤ data.length ∧ b = slice data s e := by
  rw [extract_segment] at h
  by_cases hg : seq < 1 ∨ (split_indices data magic).length - 1 < seq
  · rw [if_pos hg] at h
    cases h
  · rw [if_neg hg] at h
    push_neg at hg
    obtain ⟨hseq1, hseq2⟩ := hg
    injection h with h
    obtain ⟨hs, h⟩ := Prod.mk.inj h
    obtain ⟨he, hb⟩ := Prod.mk.inj h
    subst hs; subst he; subst hb
    have hlen : 0 < (split_indices data magic).length := split_indices_length_pos data magic
    have hseq : seq < (split_indices data magic).length := by omega
    refine ⟨by omega, by omega, rfl, rfl, ?_, split_indices_getD_le hseq, rfl⟩
    have hmono : (split_indices data magic).getD (seq - 1) 0 ≤
        (split_indices data magic).getD (seq - 1 + 1) 0 :=
      split_indices_getD_mono (by omega)
    have hj1 : seq - 1 + 1 = seq := by omega
    rwa [hj1] at hmono

theorem extract_segment_eq_none {data magic : List Nat} {seq : Nat}
    (h : seq < 1 ∨ (split_indices data magic).length - 1 < seq) :
    extract_segment data seq magic = none := by
  rw [extract_segment, if_pos h]

theorem writeAt_in_bounds {f : List Nat} {pos : Nat} (d : List Nat) (h : pos ≤ f.length) :
    writeAt f pos d = f.take pos ++ d ++ f.drop (pos + d.length) := by
  rw [writeAt]
  have hz : pos - f.length = 0 := by omega
  simp [hz]

theorem drop_append_of_length {A B : List Nat} {n k : Nat} (h : A.length = n) :
    (A ++ B).drop (n + k) = B.drop k := by
  subst h
  rw [← List.drop_drop, List.drop_left]

theorem replace_segment_eq {pak : List Nat} {s e : Nat} {c : List Nat}
    (hse : s ≤ e) (hel : e ≤ pak.length) (hc : c.length ≤ e - s) :
    replace_segment pak s e c =
      some (pak.take s ++ c ++ List.replicate (e - s - c.length) 0 ++ pak.drop e) := by
  rw [replace_segment, if_neg (by omega)]
  have hs : s ≤ pak.length := by omega
  rw [writeAt_in_bounds c hs]
  have hlen1 : (pak.take s ++ c).length = s + c.length := by
    simp [List.length_take]
    omega
  by_cases hlt : c.length < e - s
  · rw [if_pos (by omega)]
    have hf1len : ((pak.take s ++ c) ++ pak.drop (s + c.length)).length = pak.length := by
      simp [List.length_take, List.length_drop]
      omega
    rw [writeAt_in_bounds _ (by rw [hf1len]; omega)]
    rw [List.take_left' hlen1]
    rw [List.length_replicate]
    rw [drop_append_of_length hlen1, List.drop_drop]
    have he1 : s + c.length + (e - s - c.length) = e := by omega
    rw [he1]
  · rw [if_neg (by omega)]
    have hz : e - s - c.length = 0 := by omega
    have hce : s + c.length = e := by omega
    rw [hz, hce]
    simp

theorem replace_segment_fits {pak pak2 : List Nat} {s e : Nat} {c : List Nat}
    (h : replace_segment pak s e c = some pak2) :
    (c.length : Int) ≤ (e : Int) - (s : Int) := by
  by_contra hcon
  rw [replace_segment, if_pos (by omega)] at h
  cases h

theorem replace_segment_length {pak pak2 : List Nat} {s e : Nat} {c : List Nat}
    (hse : s ≤ e) (hel : e ≤ pak.length)
    (h : replace_segment pak s e c = some pak2) : pak2.length = pak.length := by
  have hc : c.length ≤ e - s := by
    have := replace_segment_fits h
    omega
  rw [replace_segment_eq hse hel hc] at h
  injection h with h
  subst h
  simp only [List.length_append, List.length_take, List.length_replicate, List.length_drop]
  omega

theorem replace_segment_eq_none_iff {pak : List Nat} {s e : Nat} {c : List Nat} :
    replace_segment pak s e c = none ↔ (e : Int) - (s : Int) < (c.length : Int) := by
  rw [replace_segment]
  by_cases hg : (c.length : Int) > (e : Int) - (s : Int)
  · rw [if_pos hg]
    constructor
    · intro _; omega
    · intro _; rfl
  · rw [if_neg hg]
    constructor
    · intro h
      exfalso
      revert h
      split
      · intro h; cases h
      · intro h; cases h
    · intro h; omega

/-! ### Helper lemmas about the level search and the repack loop -/

theorem compression_levels_sorted : compression_levels.Pairwise (· < ·) := by decide

theorem level_loop_some_mem {pak : List Nat} {s e : Nat} {encode : Nat → List Nat} :
    ∀ {ls : List Nat} {l : Nat} {pak2 : List Nat},
      level_loop pak s e encode ls = some (l, pak2) →
        l ∈ ls ∧ replace_segment pak s e (encode l) = some pak2
  | [], l, pak2, h => by simp [level_loop] at h
  | a :: tl, l, pak2, h => by
    rw [level_loop] at h
    cases hr : replace_segment pak s e (encode a) with
    | some pk =>
      rw [hr] at h
      injection h with h
      obtain ⟨h1, h2⟩ := Prod.mk.inj h
      subst h1; subst h2
      exact ⟨List.mem_cons_self _ _, hr⟩
    | none =>
      rw [hr] at h
      have h2 := level_loop_some_mem h
      exact ⟨List.mem_cons_of_mem _ h2.1, h2.2⟩

theorem level_loop_eq_some_iff {pak : List Nat} {s e : Nat} {encode : Nat → List Nat} :
    ∀ {ls : List Nat}, ls.Pairwise (· < ·) → ∀ {l : Nat} {pak2 : List Nat},
      (level_loop pak s e encode ls = some (l, pak2) ↔
        l ∈ ls ∧ replace_segment pak s e (encode l) = some pak2 ∧
          ∀ lo ∈ ls, lo < l → replace_segment pak s e (encode lo) = none)
  | [], _, l, pak2 => by simp [level_loop]
  | a :: tl, hp, l, pak2 => by
    rw [List.pairwise_cons] at hp
    rw [level_loop]
    cases hr : replace_segment pak s e (encode a) with
    | some pk =>
      constructor
      · intro h
        injection h with h
        obtain ⟨h1, h2⟩ := Prod.mk.inj h
        subst h1; subst h2
        refine ⟨List.mem_cons_self _ _, hr, fun lo hlo hlt => ?_⟩
        rcases List.mem_cons.mp hlo with rfl | hlo'
        · omega
        · exact absurd (hp.1 lo hlo') (by omega)
      · rintro ⟨hl, hrep, hmin⟩
        rcases List.mem_cons.mp hl with rfl | hl'
        · rw [hr] at hrep
          injection hrep with hrep
          rw [hrep]
        · have hnone : replace_segment pak s e (encode a) = none :=
            hmin a (List.mem_cons_self _ _) (hp.1 l hl')
          rw [hr] at hnone
          cases hnone
    | none =>
      rw [level_loop_eq_some_iff hp.2]
      constructor
      · rintro ⟨hl, hrep, hmin⟩
        refine ⟨List.mem_cons_of_mem _ hl, hrep, fun lo hlo hlt => ?_⟩
        rcases List.mem_cons.mp hlo with rfl | hlo'
        · exact hr
        · exact hmin lo hlo' hlt
      · rintro ⟨hl, hrep, hmin⟩
        rcases List.mem_cons.mp hl with rfl | hl'
        · rw [hr] at hrep
          cases hrep
        · exact ⟨hl', hrep, fun lo hlo hlt => hmin lo (List.mem_cons_of_mem _ hlo) hlt⟩

theorem level_loop_eq_none_iff {pak : List Nat} {s e : Nat} {encode : Nat → List Nat} :
    ∀ {ls : List Nat},
      level_loop pak s e encode ls = none ↔
        ∀ lo ∈ ls, replace_segment pak s e (encode lo) = none
  | [] => by simp [level_loop]
  | a :: tl => by
    rw [level_loop]
    cases hr : replace_segment pak s e (encode a) with
    | some pk =>
      constructor
      · intro h; cases h
      · intro h
        rw [h a (List.mem_cons_self _ _)] at hr
        cases hr
    | none =>
      rw [level_loop_eq_none_iff]
      constructor
      · intro h lo hlo
        rcases List.mem_cons.mp hlo with rfl | hlo'
        · exact hr
        · exact h lo hlo'
      · intro h lo hlo
        exact h lo (List.mem_cons_of_mem _ hlo)

theorem level_loop_ext {pak : List Nat} {s e : Nat} {encode encode2 : Nat → List Nat} :
    ∀ {ls : List Nat}, ls.Pairwise (· < ·) → ∀ {l : Nat} {pak2 : List Nat},
      level_loop pak s e encode ls = some (l, pak2) →
      (∀ j ∈ ls, j ≤ l → encode2 j = encode j) →
      level_loop pak s e encode2 ls = some (l, pak2)
  | [], _, l, pak2, h, _ => by simp [level_loop] at h
  | a :: tl, hp, l, pak2, h, hagree => by
    rw [List.pairwise_cons] at hp
    rw [level_loop] at h ⊢
    cases hr : replace_segment pak s e (encode a) with
    | some pk =>
      rw [hr] at h
      injection h with h
      obtain ⟨h1, h2⟩ := Prod.mk.inj h
      subst h1; subst h2
      rw [hagree a (List.mem_cons_self _ _) le_rfl, hr]
    | none =>
      rw [hr] at h
      have hltl := level_loop_some_mem h
      have hal : a ≤ l := le_of_lt (hp.1 l hltl.1)
      rw [hagree a (List.mem_cons_self _ _) hal, hr]
      exact level_loop_ext hp.2 h fun j hj hjl => hagree j (List.mem_cons_of_mem _ hj) hjl

theorem repack_edit_of_extract_none {encode : Nat → List Nat} {pak : List Nat} {seq : Nat}
    (hx : extract_segment pak seq MAGIC_NUMBER = none) :
    repack_edit encode pak seq = (pak, EditOutcome.segmentNotFound) := by
  rw [repack_edit, hx]

theorem repack_edit_of_level_none {encode : Nat → List Nat} {pak : List Nat} {seq s e : Nat}
    {b : List Nat} (hx : extract_segment pak seq MAGIC_NUMBER = some (s, e, b))
    (hll : level_loop pak s e encode compression_levels = none) :
    repack_edit encode pak seq = (pak, EditOutcome.compressionOverflow) := by
  rw [repack_edit, hx]
  dsimp only
  rw [hll]

theorem repack_edit_of_level_some {encode : Nat → List Nat} {pak : List Nat} {seq s e l : Nat}
    {b pak2 : List Nat} (hx : extract_segment pak seq MAGIC_NUMBER = some (s, e, b))
    (hll : level_loop pak s e encode compression_levels = some (l, pak2)) :
    repack_edit encode pak seq = (pak2, EditOutcome.success l) := by
  rw [repack_edit, hx]
  dsimp only
  rw [hll]

theorem repack_edit_length (encode : Nat → List Nat) (pak : List Nat) (seq : Nat) :
    (repack_edit encode pak seq).1.length = pak.length := by
  cases hx : extract_segment pak seq MAGIC_NUMBER with
  | none => rw [repack_edit_of_extract_none hx]
  | some t =>
    obtain ⟨s, e, b⟩ := t
    obtain ⟨-, -, -, -, hse, hel, -⟩ := extract_segment_eq_some hx
    cases hll : level_loop pak s e encode compression_levels with
    | none => rw [repack_edit_of_level_none hx hll]
    | some q =>
      obtain ⟨l, pak2⟩ := q
      rw [repack_edit_of_level_some hx hll]
      exact replace_segment_length hse hel (level_loop_some_mem hll).2

theorem repack_run_cons (encode : List Nat → Nat → List Nat) (pak : List Nat)
    (seq : Nat) (plain : List Nat) (rest : List (Nat × List Nat)) :
    repack_run encode pak ((seq, plain) :: rest) =
      ((repack_run encode (repack_edit (encode plain) pak seq).1 rest).1,
        (repack_edit (encode plain) pak seq).2 ::
          (repack_run encode (repack_edit (encode plain) pak seq).1 rest).2) := rfl

theorem repack_run_length (encode : List Nat → Nat → List Nat) :
    ∀ (edits : List (Nat × List Nat)) (pak : List Nat),
      (repack_run encode pak edits).1.length = pak.length
  | [], _ => rfl
  | (seq, plain) :: rest, pak => by
    rw [repack_run_cons]
    dsimp only
    rw [repack_run_length encode rest (repack_edit (encode plain) pak seq).1]
    exact repack_edit_length _ _ _

theorem split_segments_length (data magic : List Nat) :
    (split_segments data magic).length = (split_indices data magic).length - 1 := by
  rw [split_segments, List.length_map, List.enumFrom_length, segmentRanges,
    boundaryPairs_length]

/-! ### The claims -/

/-- C9: for every byte buffer containing zero occurrences of the magic
pattern, `split_segments` returns an empty segment list (it does not return a
single segment covering the buffer, and does not fail). -/
theorem C9_zero_occurrences (data : List Nat) (h : countOcc data MAGIC_NUMBER = 0) :
    split_segments data MAGIC_NUMBER = [] := by
  have hf : findFrom data MAGIC_NUMBER 0 = none := by
    rw [countOcc, countOccAux] at h
    cases hf : findFrom data MAGIC_NUMBER 0 with
    | none => rfl
    | some i =>
      rw [hf] at h
      simp at h
  rw [split_segments, segmentRanges, split_indices, magicOffsets, hf]
  rfl

/-- Witness for C9 at `data = [1, 2, 3]`. -/
theorem C9_zero_occurrences_witness :
    countOcc [1, 2, 3] MAGIC_NUMBER = 0 ∧ split_segments [1, 2, 3] MAGIC_NUMBER = [] :=
  ⟨by decide, C9_zero_occurrences [1, 2, 3] (by decide)⟩

/-- C10: every range `(start, end)` produced by the segment indexer for the
4-byte magic marker satisfies `end - start ≥ 4`: no indexed segment is
shorter than the magic marker itself (each segment starts at a full marker
occurrence and the scan cursor advances past the matched marker). -/
theorem C10_min_segment_length (data : List Nat) (r : Nat × Nat)
    (hr : r ∈ segmentRanges data MAGIC_NUMBER) : 4 ≤ r.2 - r.1 := by
  rw [segmentRanges] at hr
  have h := boundaryPairs_rel (split_indices_chain data MAGIC_NUMBER) r hr
  have hm : MAGIC_NUMBER.length = 4 := rfl
  omega

/-- Witness for C10 at `data = MAGIC + b"AAA"`, `r = (0, 7)`. -/
theorem C10_min_segment_length_witness :
    (0, 7) ∈ segmentRanges [0x28, 0xB5, 0x2F, 0xFD, 65, 65, 65] MAGIC_NUMBER ∧
      4 ≤ 7 - 0 :=
  ⟨by decide, C10_min_segment_length [0x28, 0xB5, 0x2F, 0xFD, 65, 65, 65] (0, 7) (by decide)⟩

/-- C7: the total byte length of the archive copy is invariant across the
entire repack run — every patch overwrites bytes inside the existing file
bounds and never appends to or truncates the file, for every edit, whether
it succeeds or fails. -/
theorem C7_length_invariant (encode : List Nat → Nat → List Nat) (pak : List Nat)
    (edits : List (Nat × List Nat)) :
    (repack_run encode pak edits).1.length = pak.length :=
  repack_run_length encode edits pak

/-- C6: requesting sequence number 0, or one greater than the number of
indexed segments, makes `extract_segment` report the out-of-range error
(`SegmentNotFound`) instead of reading out of bounds, and the repack loop
records the failure for that edit, leaves the archive copy unchanged, and
continues with the remaining edits. -/
theorem C6_segment_not_found (pak plain : List Nat) (encode : List Nat → Nat → List Nat)
    (rest : List (Nat × List Nat)) (seq : Nat)
    (h : seq = 0 ∨ (split_segments pak MAGIC_NUMBER).length < seq) :
    extract_segment pak seq MAGIC_NUMBER = none ∧
    repack_edit (encode plain) pak seq = (pak, EditOutcome.segmentNotFound) ∧
    repack_run encode pak ((seq, plain) :: rest) =
      ((repack_run encode pak rest).1,
        EditOutcome.segmentNotFound :: (repack_run encode pak rest).2) := by
  have hcount := split_segments_length pak MAGIC_NUMBER
  have hnone : extract_segment pak seq MAGIC_NUMBER = none :=
    extract_segment_eq_none (by omega)
  refine ⟨hnone, repack_edit_of_extract_none hnone, ?_⟩
  rw [repack_run_cons, repack_edit_of_extract_none hnone]

/-- Witness for C6 at a one-segment archive with `seq = 0`. -/
theorem C6_segment_not_found_witness :
    ((0 : Nat) = 0 ∨ (split_segments [0x28, 0xB5, 0x2F, 0xFD, 9] MAGIC_NUMBER).length < 0) ∧
    extract_segment [0x28, 0xB5, 0x2F, 0xFD, 9] 0 MAGIC_NUMBER = none ∧
    repack_edit ((fun _ _ => []) ([] : List Nat)) [0x28, 0xB5, 0x2F, 0xFD, 9] 0 =
      ([0x28, 0xB5, 0x2F, 0xFD, 9], EditOutcome.segmentNotFound) ∧
    repack_run (fun _ _ => []) [0x28, 0xB5, 0x2F, 0xFD, 9] [(0, [])] =
      ((repack_run (fun _ _ => []) [0x28, 0xB5, 0x2F, 0xFD, 9] []).1,
        EditOutcome.segmentNotFound ::
          (repack_run (fun _ _ => []) [0x28, 0xB5, 0x2F, 0xFD, 9] []).2) :=
  ⟨Or.inl rfl,
    C6_segment_not_found [0x28, 0xB5, 0x2F, 0xFD, 9] [] (fun _ _ => []) [] 0 (Or.inl rfl)⟩

/-- C5: dictionary resolution — externally supplied (non-empty) dictionary
bytes are returned unchanged without consulting the archive; with no
external dictionary, if the 4-byte marker `37 A4 30 EC` occurs in the
archive, the result is the archive's suffix from the first occurrence of the
marker (inclusive) through end-of-file; in particular
`b"XX" + EMBEDDED_MARKER + b"DICTDATA"` resolves to
`EMBEDDED_MARKER + b"DICTDATA"`. -/
theorem C5_dictionary_resolution (archive ext : List Nat) :
    (ext ≠ [] → resolve_dictionary archive (some ext) = some ext ∧
      ∀ archive2 : List Nat, resolve_dictionary archive2 (some ext) = some ext) ∧
    (∀ i : Nat, matchesAt archive DICT_START_HEX i = true →
      (∀ j, j < i → matchesAt archive DICT_START_HEX j = false) →
      resolve_dictionary archive none = some (archive.drop i)) ∧
    resolve_dictionary ([88, 88] ++ DICT_START_HEX ++ [68, 73, 67, 84, 68, 65, 84, 65]) none =
      some (DICT_START_HEX ++ [68, 73, 67, 84, 68, 65, 84, 65]) := by
  refine ⟨fun _ => ⟨rfl, fun _ => rfl⟩, fun i hi hmin => ?_, by decide⟩
  rw [resolve_dictionary, extract_dictionary_from_pak]
  have hf : findFrom archive DICT_START_HEX 0 = some i := by
    rw [findFrom_eq_some_iff (by decide)]
    exact ⟨Nat.zero_le i, hi, fun j _ hj => hmin j hj⟩
  rw [hf]

/-- Witness for C5 at `archive = b"XX" + marker + [5]`, `ext = [1]`, `i = 2`. -/
theorem C5_dictionary_resolution_witness :
    ([1] : List Nat) ≠ [] ∧
    resolve_dictionary [88, 88, 0x37, 0xA4, 0x30, 0xEC, 5] (some [1]) = some [1] ∧
    matchesAt [88, 88, 0x37, 0xA4, 0x30, 0xEC, 5] DICT_START_HEX 2 = true ∧
    resolve_dictionary [88, 88, 0x37, 0xA4, 0x30, 0xEC, 5] none =
      some ([88, 88, 0x37, 0xA4, 0x30, 0xEC, 5].drop 2) :=
  ⟨by decide,
    ((C5_dictionary_resolution [88, 88, 0x37, 0xA4, 0x30, 0xEC, 5] [1]).1 (by decide)).1,
    by decide,
    (C5_dictionary_resolution [88, 88, 0x37, 0xA4, 0x30, 0xEC, 5] [1]).2.1 2 (by decide)
      (by decide)⟩

/-- C4: an edit whose plaintext encodes to a length strictly greater than
the target segment's original length at every level 1..22 makes the repack
loop record `CompressionOverflow` for that edit, leave the archive copy's
bytes (the whole copy, hence in particular that segment range) unchanged,
and continue with the next edit. -/
theorem C4_compression_overflow (encode : List Nat → Nat → List Nat) (pak : List Nat)
    (seq s e : Nat) (orig plain : List Nat) (rest : List (Nat × List Nat))
    (hseg : extract_segment pak seq MAGIC_NUMBER = some (s, e, orig))
    (hbig : ∀ l ∈ compression_levels, e - s < (encode plain l).length) :
    repack_edit (encode plain) pak seq = (pak, EditOutcome.compressionOverflow) ∧
    repack_run encode pak ((seq, plain) :: rest) =
      ((repack_run encode pak rest).1,
        EditOutcome.compressionOverflow :: (repack_run encode pak rest).2) := by
  obtain ⟨-, -, -, -, hse, hel, -⟩ := extract_segment_eq_some hseg
  have hll : level_loop pak s e (encode plain) compression_levels = none := by
    rw [level_loop_eq_none_iff]
    intro lo hlo
    rw [replace_segment_eq_none_iff]
    have := hbig lo hlo
    omega
  refine ⟨repack_edit_of_level_none hseg hll, ?_⟩
  rw [repack_run_cons, repack_edit_of_level_none hseg hll]

/-- Witness for C4 at a 7-byte single-segment archive whose edit always
encodes to 8 bytes. -/
theorem C4_compression_overflow_witness :
    extract_segment [0x28, 0xB5, 0x2F, 0xFD, 1, 2, 3] 1 MAGIC_NUMBER =
      some (0, 7, [0x28, 0xB5, 0x2F, 0xFD, 1, 2, 3]) ∧
    (∀ l ∈ compression_levels, 7 - 0 < ((fun _ _ => List.replicate 8 0) ([] : List Nat) l).length) ∧
    repack_edit ((fun _ _ => List.replicate 8 0) ([] : List Nat)) [0x28, 0xB5, 0x2F, 0xFD, 1, 2, 3] 1 =
      ([0x28, 0xB5, 0x2F, 0xFD, 1, 2, 3], EditOutcome.compressionOverflow) ∧
    repack_run (fun _ _ => List.replicate 8 0) [0x28, 0xB5, 0x2F, 0xFD, 1, 2, 3] [(1, [])] =
      ((repack_run (fun _ _ => List.replicate 8 0) [0x28, 0xB5, 0x2F, 0xFD, 1, 2, 3] []).1,
        EditOutcome.compressionOverflow ::
          (repack_run (fun _ _ => List.replicate 8 0) [0x28, 0xB5, 0x2F, 0xFD, 1, 2, 3] []).2) :=
  ⟨by decide, by decide,
    C4_compression_overflow (fun _ _ => List.replicate 8 0) [0x28, 0xB5, 0x2F, 0xFD, 1, 2, 3]
      1 0 7 [0x28, 0xB5, 0x2F, 0xFD, 1, 2, 3] [] [] (by decide) (by decide)⟩

/-- C3: after a successful patch of a segment `[start, end)` with encoded
bytes of length `L < end - start`, the archive copy holds the encoded bytes
at `[start, start+L)`, zero bytes at every position of `[start+L, end)`, and
every byte before `start` and at or after `end` keeps its pre-patch value
(in particular the length is unchanged). -/
theorem C3_patch_frame (pak pak2 : List Nat) (seq s e : Nat) (orig enc : List Nat)
    (hseg : extract_segment pak seq MAGIC_NUMBER = some (s, e, orig))
    (hlen : enc.length < e - s)
    (hrepl : replace_segment pak s e enc = some pak2) :
    pak2.length = pak.length ∧
    (∀ i, i < enc.length → pak2[s + i]? = enc[i]?) ∧
    (∀ j, s + enc.length ≤ j → j < e → pak2[j]? = some 0) ∧
    (∀ i, i < s → pak2[i]? = pak[i]?) ∧
    (∀ j, e ≤ j → pak2[j]? = pak[j]?) := by
  obtain ⟨-, -, -, -, hse, hel, -⟩ := extract_segment_eq_some hseg
  have hc : enc.length ≤ e - s := by omega
  rw [replace_segment_eq hse hel hc] at hrepl
  injection hrepl with hrepl
  subst hrepl
  have hts : (pak.take s).length = s := by
    rw [List.length_take]
    omega
  have htsc : (pak.take s ++ enc).length = s + enc.length := by
    rw [List.length_append, hts]
  have htscz : ((pak.take s ++ enc) ++ List.replicate (e - s - enc.length) 0).length = e := by
    rw [List.length_append, htsc, List.length_replicate]
    omega
  refine ⟨?_, ?_, ?_, ?_, ?_⟩
  · rw [List.length_append, htscz, List.length_drop]
    omega
  · intro i hi
    rw [List.getElem?_append_left (by rw [htscz]; omega),
      List.getElem?_append_left (by rw [htsc]; omega),
      List.getElem?_append_right (by rw [hts]; omega), hts]
    congr 1
    omega
  · intro j hj1 hj2
    rw [List.getElem?_append_left (by rw [htscz]; omega),
      List.getElem?_append_right (by rw [htsc]; omega), htsc,
      List.getElem?_replicate_of_lt (by omega)]
  · intro i hi
    rw [List.getElem?_append_left (by rw [htscz]; omega),
      List.getElem?_append_left (by rw [htsc]; omega),
      List.getElem?_append_left (by rw [hts]; omega),
      List.getElem?_take_of_lt hi]
  · intro j hj
    rw [List.getElem?_append_right (by rw [htscz]; omega), htscz,
      List.getElem?_drop]
    congr 1
    omega

/-- Witness for C3: patch the single segment `[0, 7)` of a 7-byte archive
with the 2-byte encoding `[5, 5]`. -/
theorem C3_patch_frame_witness :
    extract_segment [0x28, 0xB5, 0x2F, 0xFD, 9, 9, 9] 1 MAGIC_NUMBER =
      some (0, 7, [0x28, 0xB5, 0x2F, 0xFD, 9, 9, 9]) ∧
    ([5, 5] : List Nat).length < 7 - 0 ∧
    replace_segment [0x28, 0xB5, 0x2F, 0xFD, 9, 9, 9] 0 7 [5, 5] =
      some [5, 5, 0, 0, 0, 0, 0] ∧
    (([5, 5, 0, 0, 0, 0, 0] : List Nat).length =
        ([0x28, 0xB5, 0x2F, 0xFD, 9, 9, 9] : List Nat).length ∧
      (∀ i, i < ([5, 5] : List Nat).length →
        ([5, 5, 0, 0, 0, 0, 0] : List Nat)[0 + i]? = ([5, 5] : List Nat)[i]?) ∧
      (∀ j, 0 + ([5, 5] : List Nat).length ≤ j → j < 7 →
        ([5, 5, 0, 0, 0, 0, 0] : List Nat)[j]? = some 0) ∧
      (∀ i, i < 0 →
        ([5, 5, 0, 0, 0, 0, 0] : List Nat)[i]? = ([0x28, 0xB5, 0x2F, 0xFD, 9, 9, 9] : List Nat)[i]?) ∧
      (∀ j, 7 ≤ j →
        ([5, 5, 0, 0, 0, 0, 0] : List Nat)[j]? = ([0x28, 0xB5, 0x2F, 0xFD, 9, 9, 9] : List Nat)[j]?)) :=
  ⟨by decide, by decide, by decide,
    C3_patch_frame [0x28, 0xB5, 0x2F, 0xFD, 9, 9, 9] [5, 5, 0, 0, 0, 0, 0] 1 0 7
      [0x28, 0xB5, 0x2F, 0xFD, 9, 9, 9] [5, 5] (by decide) (by decide) (by decide)⟩

/-- C2: the repack level search tries compression levels in ascending order
`1, ..., 22`; the accepted level is exactly the first whose encoded output
fits the original segment length (`replace_segment` succeeds, which happens
precisely when the encoded length is at most `end - start`), and the result
is that level together with the patched archive; an oversize result at one
level only discards that level (`replace_segment` refuses it before
writing) and the search moves on; once a level is accepted, no later level
influences the result (the search result only depends on the encodings at
levels up to the accepted one). -/
theorem C2_level_search (pak pak2 : List Nat) (s e : Nat) (encode : Nat → List Nat) (l : Nat) :
    compression_levels.head? = some 1 ∧
    compression_levels.getLast? = some MAX_COMPRESSION_LEVEL ∧
    List.Chain' (· < ·) compression_levels ∧
    (∀ c : List Nat, replace_segment pak s e c = none ↔
      (e : Int) - (s : Int) < (c.length : Int)) ∧
    (level_loop pak s e encode compression_levels = some (l, pak2) ↔
      (l ∈ compression_levels ∧ replace_segment pak s e (encode l) = some pak2 ∧
        ∀ lo ∈ compression_levels, lo < l →
          replace_segment pak s e (encode lo) = none)) ∧
    (level_loop pak s e encode compression_levels = some (l, pak2) →
      ∀ encode2 : Nat → List Nat, (∀ j ∈ compression_levels, j ≤ l → encode2 j = encode j) →
        level_loop pak s e encode2 compression_levels = some (l, pak2)) :=
  ⟨by decide, by decide, compression_levels_sorted.chain',
    fun _ => replace_segment_eq_none_iff,
    level_loop_eq_some_iff compression_levels_sorted,
    fun h encode2 hagree => level_loop_ext compression_levels_sorted h hagree⟩

/-- Witness for C2: levels 1 and 2 encode to 4 oversize bytes, level 3 to 2
bytes, so the search accepts level 3 and patches the 3-byte range `[1, 4)`
of `[1, 2, 3, 4, 5]` with `[8, 8]` plus one zero of padding. -/
theorem C2_level_search_witness :
    level_loop [1, 2, 3, 4, 5] 1 4 (fun lv => if lv < 3 then [7, 7, 7, 7] else [8, 8])
        compression_levels = some (3, [1, 8, 8, 0, 5]) :=
  (C2_level_search [1, 2, 3, 4, 5] [1, 8, 8, 0, 5] 1 4
      (fun lv => if lv < 3 then [7, 7, 7, 7] else [8, 8]) 3).2.2.2.2.1.mpr
    ⟨by decide, by decide, by decide⟩

theorem magicOffsets_length_eq_countOccAux (data magic : List Nat) :
    ∀ (fuel start : Nat),
      (magicOffsets data magic fuel start).length = countOccAux data magic fuel start := by
  intro fuel
  induction fuel with
  | zero => intro start; rfl
  | succ n ih =>
    intro start
    rw [magicOffsets, countOccAux]
    cases findFrom data magic start with
    | none => rfl
    | some i =>
      rw [List.length_cons, ih]

/-- C1 counterexample: the claim fails on the code in two ways.  For the
claimed concrete scenario `MAGIC + b"AAA" + MAGIC + b"BBBB"` the second
segment is `MAGIC + b"BBBB"` (8 bytes), so the ranges are `[(0,7),(7,15)]`,
not `[(0,7),(7,11)]`.  And for a buffer with a leading non-marker prefix,
such as `[0] + MAGIC`, the single range is `(1, 5)`, so the union of the
ranges misses offset 0 and is not the whole 5-byte buffer. -/
theorem C1_counterexample :
    segmentRanges ([0x28, 0xB5, 0x2F, 0xFD, 65, 65, 65, 0x28, 0xB5, 0x2F, 0xFD, 66, 66, 66, 66])
        MAGIC_NUMBER = [(0, 7), (7, 15)] ∧
    segmentRanges ([0x28, 0xB5, 0x2F, 0xFD, 65, 65, 65, 0x28, 0xB5, 0x2F, 0xFD, 66, 66, 66, 66])
        MAGIC_NUMBER ≠ [(0, 7), (7, 11)] ∧
    segmentRanges ([0] ++ MAGIC_NUMBER) MAGIC_NUMBER = [(1, 5)] ∧
    ¬(∃ r ∈ segmentRanges ([0] ++ MAGIC_NUMBER) MAGIC_NUMBER, r.1 ≤ 0 ∧ 0 < r.2) ∧
    ([0] ++ MAGIC_NUMBER : List Nat).length = 5 := by decide

/-- C1 (amended): for every byte buffer and non-empty magic pattern
occurring `k` times (greedy non-overlapping count, Python's `bytes.count`),
the segment indexer returns exactly `k` segments whose half-open ranges are
contiguous, ascending and non-overlapping, and whose union is the suffix of
the buffer from the first occurrence of the pattern (so the whole buffer
exactly when the buffer begins with the pattern); when the pattern does not
occur the range table is empty.  For the buffer
`MAGIC + b"AAA" + MAGIC + b"BBBB"` (magic length 4) it yields ranges
`[(0, 7), (7, 15)]` carrying sequence numbers 1 and 2. -/
theorem C1_segment_indexer (data magic : List Nat) (hm : magic ≠ []) :
    (segmentRanges data magic).length = countOcc data magic ∧
    List.Chain' (fun p q : Nat × Nat => p.2 = q.1) (segmentRanges data magic) ∧
    (∀ r ∈ segmentRanges data magic, r.1 < r.2) ∧
    (∀ i : Nat, matchesAt data magic i = true →
      (∀ j, j < i → matchesAt data magic j = false) →
      ∀ x : Nat, (∃ r ∈ segmentRanges data magic, r.1 ≤ x ∧ x < r.2) ↔
        (i ≤ x ∧ x < data.length)) ∧
    ((∀ j : Nat, matchesAt data magic j = false) → segmentRanges data magic = []) ∧
    split_segments ([0x28, 0xB5, 0x2F, 0xFD, 65, 65, 65, 0x28, 0xB5, 0x2F, 0xFD, 66, 66, 66, 66])
        MAGIC_NUMBER =
      [(1, [0x28, 0xB5, 0x2F, 0xFD, 65, 65, 65]), (2, [0x28, 0xB5, 0x2F, 0xFD, 66, 66, 66, 66])] := by
  refine ⟨?_, ?_, ?_, ?_, ?_, by decide⟩
  · rw [segmentRanges, boundaryPairs_length, split_indices, countOcc,
      ← magicOffsets_length_eq_countOccAux]
    simp
  · exact boundaryPairs_contig _
  · intro r hr
    rw [segmentRanges] at hr
    exact boundaryPairs_rel (split_indices_lt hm) r hr
  · intro i hi hmin x
    have hf : findFrom data magic 0 = some i := by
      rw [findFrom_eq_some_iff hm]
      exact ⟨Nat.zero_le i, hi, fun j _ hj => hmin j hj⟩
    have hscan : magicOffsets data magic (data.length + 1) 0 =
        i :: magicOffsets data magic data.length (i + magic.length) := by
      rw [magicOffsets, hf]
    have hsi : split_indices data magic =
        i :: (magicOffsets data magic data.length (i + magic.length) ++ [data.length]) := by
      rw [split_indices, hscan, List.cons_append]
    have hle : List.Chain' (· ≤ ·)
        (i :: (magicOffsets data magic data.length (i + magic.length) ++ [data.length])) := by
      rw [← hsi]
      exact split_indices_le data magic
    have hcf := boundaryPairs_chainFrom _ i hle
    rw [List.getLastD_concat] at hcf
    rw [segmentRanges, hsi]
    exact chainFrom_union hcf x
  · intro hnone
    have hf : findFrom data magic 0 = none :=
      findFrom_eq_none_of_all fun j _ => hnone j
    rw [segmentRanges, split_indices, magicOffsets, hf]
    rfl

/-- Witness for C1 at `data = [0] + MAGIC`, `magic = MAGIC`. -/
theorem C1_segment_indexer_witness :
    MAGIC_NUMBER ≠ [] ∧
    ((segmentRanges ([0] ++ MAGIC_NUMBER) MAGIC_NUMBER).length =
        countOcc ([0] ++ MAGIC_NUMBER) MAGIC_NUMBER ∧
      List.Chain' (fun p q : Nat × Nat => p.2 = q.1)
        (segmentRanges ([0] ++ MAGIC_NUMBER) MAGIC_NUMBER) ∧
      (∀ r ∈ segmentRanges ([0] ++ MAGIC_NUMBER) MAGIC_NUMBER, r.1 < r.2) ∧
      (∀ i : Nat, matchesAt ([0] ++ MAGIC_NUMBER) MAGIC_NUMBER i = true →
        (∀ j, j < i → matchesAt ([0] ++ MAGIC_NUMBER) MAGIC_NUMBER j = false) →
        ∀ x : Nat,
          (∃ r ∈ segmentRanges ([0] ++ MAGIC_NUMBER) MAGIC_NUMBER, r.1 ≤ x ∧ x < r.2) ↔
            (i ≤ x ∧ x < ([0] ++ MAGIC_NUMBER : List Nat).length)) ∧
      ((∀ j : Nat, matchesAt ([0] ++ MAGIC_NUMBER) MAGIC_NUMBER j = false) →
        segmentRanges ([0] ++ MAGIC_NUMBER) MAGIC_NUMBER = []) ∧
      split_segments
          ([0x28, 0xB5, 0x2F, 0xFD, 65, 65, 65, 0x28, 0xB5, 0x2F, 0xFD, 66, 66, 66, 66])
          MAGIC_NUMBER =
        [(1, [0x28, 0xB5, 0x2F, 0xFD, 65, 65, 65]),
          (2, [0x28, 0xB5, 0x2F, 0xFD, 66, 66, 66, 66])]) :=
  ⟨by decide, C1_segment_indexer ([0] ++ MAGIC_NUMBER) MAGIC_NUMBER (by decide)⟩

/-- C8 counterexample: with an archive that contains no embedded dictionary
marker and no external dictionary, both operations detect the missing
dictionary only after creating a file: unpack has already created the backup
copy and repack has already created the writable archive copy, so the claim
that no file is touched before the absence is detected fails. -/
theorem C8_counterexample :
    unpack_zsdic ⟨some [9, 9], none⟩ (fun _ _ => none) =
      ([FsEffect.backupCopy], OpResult.dictionaryNotFound) ∧
    repack_zsdic ⟨some [9, 9], none⟩ (fun _ _ => []) [(1, [0])] =
      ([FsEffect.archiveCopy], OpResult.dictionaryNotFound) ∧
    ([FsEffect.backupCopy] : List FsEffect) ≠ [] ∧
    ([FsEffect.archiveCopy] : List FsEffect) ≠ [] := by decide

/-- C8 (amended): `ArchiveNotFound` aborts either operation before any file
is touched; `DictionaryNotFound` also aborts the whole operation with no
output artifact or patch written, but only after the backup copy (unpack)
respectively the writable archive copy (repack) has already been created. -/
theorem C8_environment_absence (env : Env) (decode : List Nat → List Nat → Option (List Nat))
    (encode : List Nat → Nat → List Nat) (edits : List (Nat × List Nat)) :
    (env.archive = none →
      unpack_zsdic env decode = ([], OpResult.archiveNotFound) ∧
      repack_zsdic env encode edits = ([], OpResult.archiveNotFound)) ∧
    (∀ data : List Nat, env.archive = some data →
      resolve_dictionary data env.externalDict = none →
      unpack_zsdic env decode = ([FsEffect.backupCopy], OpResult.dictionaryNotFound) ∧
      (edits ≠ [] →
        repack_zsdic env encode edits =
          ([FsEffect.archiveCopy], OpResult.dictionaryNotFound))) := by
  obtain ⟨arch, ext⟩ := env
  constructor
  · intro h
    cases h
    exact ⟨rfl, rfl⟩
  · intro data h hdict
    cases h
    constructor
    · rw [unpack_zsdic]
      dsimp only at hdict ⊢
      rw [hdict]
    · intro hne
      rw [repack_zsdic]
      dsimp only at hdict ⊢
      rw [if_neg (by simp [List.isEmpty_iff, hne]), hdict]

/-- Witness for C8 at an absent archive and at a two-byte archive with no
dictionary anywhere. -/
theorem C8_environment_absence_witness :
    (unpack_zsdic ⟨none, none⟩ (fun _ _ => none) = ([], OpResult.archiveNotFound) ∧
      repack_zsdic ⟨none, none⟩ (fun _ _ => []) [] = ([], OpResult.archiveNotFound)) ∧
    unpack_zsdic ⟨some [9, 8], none⟩ (fun _ _ => none) =
      ([FsEffect.backupCopy], OpResult.dictionaryNotFound) ∧
    repack_zsdic ⟨some [9, 8], none⟩ (fun _ _ => []) [(1, [0])] =
      ([FsEffect.archiveCopy], OpResult.dictionaryNotFound) :=
  ⟨(C8_environment_absence ⟨none, none⟩ (fun _ _ => none) (fun _ _ => []) []).1 rfl,
    ((C8_environment_absence ⟨some [9, 8], none⟩ (fun _ _ => none) (fun _ _ => [])
        [(1, [0])]).2 [9, 8] rfl (by decide)).1,
    ((C8_environment_absence ⟨some [9, 8], none⟩ (fun _ _ => none) (fun _ _ => [])
        [(1, [0])]).2 [9, 8] rfl (by decide)).2 (by decide)⟩

end SenHacker
